import Mathlib

/-!
Shallow embedding of the bytefluo bounded byte cursor (bytefluo.h).

The C++ class manages read-only, bounds-checked, byte-order-aware access to
a byte range [buf_begin, buf_end).  Pointers are modelled as addresses of
type Nat (address 0 is the null pointer), memory as a total map from
addresses to bytes, size_t values as Nat below 2 ^ 64, and ptrdiff_t / long
values as Int (LP64: both are 64-bit).  A C++ method that can throw is
embedded as a pure function returning the result together with the cursor
state after the call; on the throwing paths the original state is returned,
which is faithful because in the source every throw statement executes
before any member mutation of that method.
-/

namespace Bytefluo

/-- Error identifiers of bytefluo_exception (bytefluo.h lines 24-32). -/
inductive error_id where
  | null_begin_non_null_end
  | null_end_non_null_begin
  | end_precedes_begin
  | invalid_byte_order
  | attempt_to_read_past_end
  | attempt_to_seek_after_end
  | attempt_to_seek_before_beginning
deriving DecidableEq, Repr

/-- CHAR_BIT on the modelled platform. -/
def CHAR_BIT : Nat := 8

/-- Value of the enumerator bytefluo::big (first enumerator, value 0). -/
def big : Nat := 0

/-- Value of the enumerator bytefluo::little (second enumerator, value 1). -/
def little : Nat := 1

/-- Conversion to uint16_t: truncation modulo 2 ^ 16. -/
def uint16 (x : Nat) : Nat := x % 2 ^ 16

/-- Conversion to uint32_t: truncation modulo 2 ^ 32. -/
def uint32 (x : Nat) : Nat := x % 2 ^ 32

/-- Conversion to uint64_t: truncation modulo 2 ^ 64. -/
def uint64 (x : Nat) : Nat := x % 2 ^ 64

/-- static_cast<ptrdiff_t>(len) for a 64-bit size_t value len: values with
the top bit set become negative (two-complement wrap). -/
def ptrdiff_of_size (len : Nat) : Int :=
  if len < 2 ^ 63 then (len : Int) else (len : Int) - 2 ^ 64

/-- Memory: a total map from addresses to byte contents. -/
def Mem : Type := Nat → Nat

/-- Dereference a const uint8_t pointer: a stored byte is always below 256. -/
def byteAt (mem : Mem) (a : Nat) : Nat := mem a % 256

/-- State of a bytefluo object (bytefluo.h lines 304-307).  buf_byte_order
holds the numeric value of the stored byte_order enum. -/
structure bytefluo where
  buf_begin : Nat
  buf_end : Nat
  cursor : Nat
  buf_byte_order : Nat
deriving DecidableEq, Repr

/-- Default constructor (bytefluo.h lines 181-184): empty range, big-endian. -/
def default_ctor : bytefluo :=
  { buf_begin := 0, buf_end := 0, cursor := 0, buf_byte_order := big }

/-- bytefluo::validate (bytefluo.h lines 310-324), with the thrown
exception id returned instead. -/
def validate (b e : Nat) : Option error_id :=
  if b = 0 ∧ e ≠ 0 then some .null_begin_non_null_end
  else if b ≠ 0 ∧ e = 0 then some .null_end_non_null_begin
  else if e < b then some .end_precedes_begin
  else none

/-- Main constructor (bytefluo.h lines 188-201): members are initialised,
then validate runs, then the byte order is checked. -/
def construct (b e bo : Nat) : Except error_id bytefluo :=
  match validate b e with
  | some err => .error err
  | none =>
    if bo ≠ big ∧ bo ≠ little then .error .invalid_byte_order
    else .ok { buf_begin := b, buf_end := e, cursor := b, buf_byte_order := bo }

/-- bytefluo::set_data_range (bytefluo.h lines 204-211): validate runs
before any member is assigned, so on failure the state is unchanged. -/
def set_data_range (s : bytefluo) (b e : Nat) : Option error_id × bytefluo :=
  match validate b e with
  | some err => (some err, s)
  | none => (none, { s with cursor := b, buf_begin := b, buf_end := e })

/-- bytefluo::set_byte_order (bytefluo.h lines 214-221). -/
def set_byte_order (s : bytefluo) (bo : Nat) : Option error_id × bytefluo :=
  if bo ≠ big ∧ bo ≠ little then (some .invalid_byte_order, s)
  else (none, { s with buf_byte_order := bo })

/-- bytefluo::impl<scalar_type, 1>::read (bytefluo.h lines 63-76); returns
the value read and the new cursor.  Byte order is irrelevant; the final
scalar_type cast of a single byte is the identity for 1-byte types. -/
def impl_read_1 (mem : Mem) (cursor buf_end : Nat) (_bo : Nat) :
    Except error_id (Nat × Nat) :=
  if (buf_end : Int) - (cursor : Int) < 1 then
    .error .attempt_to_read_past_end
  else
    .ok (byteAt mem cursor, cursor + 1)

/-- bytefluo::impl<scalar_type, 2>::read (bytefluo.h lines 78-100).  The
outer uint16 is the final cast to the 2-byte scalar_type (bit pattern). -/
def impl_read_2 (mem : Mem) (cursor buf_end : Nat) (bo : Nat) :
    Except error_id (Nat × Nat) :=
  if (buf_end : Int) - (cursor : Int) < 2 then
    .error .attempt_to_read_past_end
  else
    let out :=
      if bo = little then
        uint16 (uint16 (byteAt mem (cursor + 1)) <<< CHAR_BIT
          ||| uint16 (byteAt mem cursor))
      else
        uint16 (uint16 (byteAt mem cursor) <<< CHAR_BIT
          ||| uint16 (byteAt mem (cursor + 1)))
    .ok (out, cursor + 2)

/-- bytefluo::impl<scalar_type, 4>::read (bytefluo.h lines 102-132).  Each
shifted term carries the uint32 truncation of the C++ expression type; the
outer uint32 is the final cast to the 4-byte scalar_type (bit pattern). -/
def impl_read_4 (mem : Mem) (cursor buf_end : Nat) (bo : Nat) :
    Except error_id (Nat × Nat) :=
  if (buf_end : Int) - (cursor : Int) < 4 then
    .error .attempt_to_read_past_end
  else
    let out :=
      if bo = little then
        let o3 := uint32 (uint32 (byteAt mem (cursor + 3)) <<< (CHAR_BIT * 3))
        let o2 := uint32 (uint32 (byteAt mem (cursor + 2)) <<< (CHAR_BIT * 2))
        let o1 := uint32 (uint32 (byteAt mem (cursor + 1)) <<< CHAR_BIT)
        let o0 := uint32 (byteAt mem cursor)
        uint32 (o3 ||| o2 ||| o1 ||| o0)
      else
        let o3 := uint32 (uint32 (byteAt mem cursor) <<< (CHAR_BIT * 3))
        let o2 := uint32 (uint32 (byteAt mem (cursor + 1)) <<< (CHAR_BIT * 2))
        let o1 := uint32 (uint32 (byteAt mem (cursor + 2)) <<< CHAR_BIT)
        let o0 := uint32 (byteAt mem (cursor + 3))
        uint32 (o3 ||| o2 ||| o1 ||| o0)
    .ok (out, cursor + 4)

/-- bytefluo::impl<scalar_type, 8>::read (bytefluo.h lines 134-176): two
uint32 halves combined through uint64; the outer uint64 is the final cast
to the 8-byte scalar_type (bit pattern). -/
def impl_read_8 (mem : Mem) (cursor buf_end : Nat) (bo : Nat) :
    Except error_id (Nat × Nat) :=
  if (buf_end : Int) - (cursor : Int) < 8 then
    .error .attempt_to_read_past_end
  else
    let out :=
      if bo = little then
        let h3 := uint32 (uint32 (byteAt mem (cursor + 7)) <<< (CHAR_BIT * 3))
        let h2 := uint32 (uint32 (byteAt mem (cursor + 6)) <<< (CHAR_BIT * 2))
        let h1 := uint32 (uint32 (byteAt mem (cursor + 5)) <<< CHAR_BIT)
        let h0 := uint32 (byteAt mem (cursor + 4))
        let h := h3 ||| h2 ||| h1 ||| h0
        let l3 := uint32 (uint32 (byteAt mem (cursor + 3)) <<< (CHAR_BIT * 3))
        let l2 := uint32 (uint32 (byteAt mem (cursor + 2)) <<< (CHAR_BIT * 2))
        let l1 := uint32 (uint32 (byteAt mem (cursor + 1)) <<< CHAR_BIT)
        let l0 := uint32 (byteAt mem cursor)
        let l := l3 ||| l2 ||| l1 ||| l0
        uint64 (uint64 h <<< (CHAR_BIT * 4) ||| uint64 l)
      else
        let h3 := uint32 (uint32 (byteAt mem cursor) <<< (CHAR_BIT * 3))
        let h2 := uint32 (uint32 (byteAt mem (cursor + 1)) <<< (CHAR_BIT * 2))
        let h1 := uint32 (uint32 (byteAt mem (cursor + 2)) <<< CHAR_BIT)
        let h0 := uint32 (byteAt mem (cursor + 3))
        let h := h3 ||| h2 ||| h1 ||| h0
        let l3 := uint32 (uint32 (byteAt mem (cursor + 4)) <<< (CHAR_BIT * 3))
        let l2 := uint32 (uint32 (byteAt mem (cursor + 5)) <<< (CHAR_BIT * 2))
        let l1 := uint32 (uint32 (byteAt mem (cursor + 6)) <<< CHAR_BIT)
        let l0 := uint32 (byteAt mem (cursor + 7))
        let l := l3 ||| l2 ||| l1 ||| l0
        uint64 (uint64 h <<< (CHAR_BIT * 4) ||| uint64 l)
    .ok (out, cursor + 8)

/-- Supported scalar widths: the four sizes for which bytefluo::impl is
specialised.  Any other sizeof(scalar_type) does not compile. -/
inductive width where
  | w1
  | w2
  | w4
  | w8
deriving DecidableEq, Repr

/-- sizeof the scalar type of a given width. -/
def width.bytes : width → Nat
  | .w1 => 1
  | .w2 => 2
  | .w4 => 4
  | .w8 => 8

/-- Compile-time dispatch of bytefluo::impl<scalar_type, sizeof_out>::read
on sizeof(scalar_type). -/
def impl_read (mem : Mem) (w : width) (cursor buf_end bo : Nat) :
    Except error_id (Nat × Nat) :=
  match w with
  | .w1 => impl_read_1 mem cursor buf_end bo
  | .w2 => impl_read_2 mem cursor buf_end bo
  | .w4 => impl_read_4 mem cursor buf_end bo
  | .w8 => impl_read_8 mem cursor buf_end bo

/-- bytefluo::operator>> (bytefluo.h lines 224-229): the value read is the
unsigned bit pattern; a signed scalar_type reinterprets the same pattern
and does not change the error or cursor behaviour. -/
def read_scalar (mem : Mem) (s : bytefluo) (w : width) :
    Except error_id Nat × bytefluo :=
  match impl_read mem w s.cursor s.buf_end s.buf_byte_order with
  | .error e => (.error e, s)
  | .ok (out, c) => (.ok out, { s with cursor := c })

/-- bytefluo::read (bytefluo.h lines 233-242): raw copy of len bytes.  The
bounds check compares the pointer difference with
static_cast<ptrdiff_t>(len). -/
def read (mem : Mem) (s : bytefluo) (len : Nat) :
    Except error_id (List Nat) × bytefluo :=
  if (s.buf_end : Int) - (s.cursor : Int) < ptrdiff_of_size len then
    (.error .attempt_to_read_past_end, s)
  else
    (.ok ((List.range len).map fun i => byteAt mem (s.cursor + i)),
     { s with cursor := s.cursor + len })

/-- bytefluo::seek_begin (bytefluo.h lines 245-253).  buf_end - buf_begin
is the size_t cast of the pointer difference, which for a validated range
(buf_begin ≤ buf_end) is the Nat difference. -/
def seek_begin (s : bytefluo) (pos : Nat) : Except error_id Nat × bytefluo :=
  if pos > s.buf_end - s.buf_begin then
    (.error .attempt_to_seek_after_end, s)
  else
    let c := s.buf_begin + pos
    (.ok (c - s.buf_begin), { s with cursor := c })

/-- bytefluo::seek_current (bytefluo.h lines 256-272): pos has type long
(64-bit), the compared pointer differences are exact integers. -/
def seek_current (s : bytefluo) (pos : Int) : Except error_id Nat × bytefluo :=
  if pos < 0 then
    if pos < (s.buf_begin : Int) - (s.cursor : Int) then
      (.error .attempt_to_seek_before_beginning, s)
    else
      let c := ((s.cursor : Int) + pos).toNat
      (.ok (c - s.buf_begin), { s with cursor := c })
  else
    if pos > (s.buf_end : Int) - (s.cursor : Int) then
      (.error .attempt_to_seek_after_end, s)
    else
      let c := ((s.cursor : Int) + pos).toNat
      (.ok (c - s.buf_begin), { s with cursor := c })

/-- bytefluo::seek_end (bytefluo.h lines 275-283). -/
def seek_end (s : bytefluo) (pos : Nat) : Except error_id Nat × bytefluo :=
  if pos > s.buf_end - s.buf_begin then
    (.error .attempt_to_seek_before_beginning, s)
  else
    let c := s.buf_end - pos
    (.ok (c - s.buf_begin), { s with cursor := c })

/-- bytefluo::eos (bytefluo.h lines 286-289). -/
def eos (s : bytefluo) : Bool := s.cursor == s.buf_end

/-- bytefluo::size (bytefluo.h lines 292-295). -/
def size (s : bytefluo) : Nat := s.buf_end - s.buf_begin

/-- bytefluo::tellg (bytefluo.h lines 298-301). -/
def tellg (s : bytefluo) : Nat := s.cursor - s.buf_begin

/-- Cursor invariant stated by the spec: buf_begin ≤ cursor ≤ buf_end. -/
def WF (s : bytefluo) : Prop :=
  s.buf_begin ≤ s.cursor ∧ s.cursor ≤ s.buf_end

/-- Big-endian decode formula as written in the spec:
out = b[0] <<< (8*(N-1)) ||| b[1] <<< (8*(N-2)) ||| ... ||| b[N-1]. -/
def spec_decode_be (mem : Mem) (c n : Nat) : Nat :=
  (List.range n).foldl (fun acc i => acc ||| byteAt mem (c + i) <<< (8 * (n - 1 - i))) 0

/-- Little-endian decode formula as written in the spec:
out = b[N-1] <<< (8*(N-1)) ||| ... ||| b[0]. -/
def spec_decode_le (mem : Mem) (c n : Nat) : Nat :=
  (List.range n).foldl (fun acc i => acc ||| byteAt mem (c + i) <<< (8 * i)) 0

/-- Memory holding the bytes of concrete scenario 1 at addresses 100-106. -/
def mem99 : Mem :=
  fun a => [0x99, 0xAA, 0xBB, 0xCC, 0xDD, 0xEE, 0xFF].getD (a - 100) 0

/-- Zero-filled memory used for concrete state evaluations. -/
def mem0 : Mem := fun _ => 0

theorem byteAt_lt (mem : Mem) (a : Nat) : byteAt mem a < 256 :=
  Nat.mod_lt _ (by norm_num)

theorem byte_lt_pow (mem : Mem) (a n : Nat) (h : 8 ≤ n) : byteAt mem a < 2 ^ n :=
  lt_of_lt_of_le (byteAt_lt mem a)
    (le_trans (by norm_num) (Nat.pow_le_pow_right (by norm_num) h))

theorem shl_byte_lt (mem : Mem) (a k n : Nat) (h : k + 8 ≤ n) :
    byteAt mem a <<< k < 2 ^ n := by
  rw [Nat.shiftLeft_eq]
  have h1 : byteAt mem a * 2 ^ k < 2 ^ (8 + k) := by
    rw [pow_add]
    exact mul_lt_mul_of_pos_right (byteAt_lt mem a) (Nat.two_pow_pos k)
  exact lt_of_lt_of_le h1 (Nat.pow_le_pow_right (by norm_num) (by omega))

theorem uint16_byte (mem : Mem) (a : Nat) : uint16 (byteAt mem a) = byteAt mem a :=
  Nat.mod_eq_of_lt (byte_lt_pow mem a 16 (by norm_num))

theorem uint32_byte (mem : Mem) (a : Nat) : uint32 (byteAt mem a) = byteAt mem a :=
  Nat.mod_eq_of_lt (byte_lt_pow mem a 32 (by norm_num))

theorem uint32_shl_byte (mem : Mem) (a k : Nat) (h : k + 8 ≤ 32) :
    uint32 (byteAt mem a <<< k) = byteAt mem a <<< k :=
  Nat.mod_eq_of_lt (shl_byte_lt mem a k 32 h)

theorem shiftLeft_or_distrib (x y n : Nat) : (x ||| y) <<< n = x <<< n ||| y <<< n := by
  apply Nat.eq_of_testBit_eq
  intro i
  simp [Nat.testBit_shiftLeft, Nat.testBit_or, Bool.and_or_distrib_left]

theorem shiftLeft_shiftLeft_add (x m n : Nat) : (x <<< m) <<< n = x <<< (m + n) := by
  simp [Nat.shiftLeft_eq, pow_add, Nat.mul_assoc]

theorem nat_or_left_comm (x y z : Nat) : x ||| (y ||| z) = y ||| (x ||| z) := by
  rw [← Nat.or_assoc, Nat.or_comm x y, Nat.or_assoc]

theorem or2_byte_lt (mem : Mem) (a0 a1 n : Nat) (h : 16 ≤ n) :
    byteAt mem a0 <<< 8 ||| byteAt mem a1 < 2 ^ n :=
  Nat.or_lt_two_pow (shl_byte_lt mem a0 8 n (by omega)) (byte_lt_pow mem a1 n (by omega))

theorem or4_byte_lt (mem : Mem) (a0 a1 a2 a3 : Nat) :
    byteAt mem a0 <<< 24 ||| byteAt mem a1 <<< 16 ||| byteAt mem a2 <<< 8
      ||| byteAt mem a3 < 2 ^ 32 :=
  Nat.or_lt_two_pow
    (Nat.or_lt_two_pow
      (Nat.or_lt_two_pow (shl_byte_lt mem a0 24 32 (by norm_num))
        (shl_byte_lt mem a1 16 32 (by norm_num)))
      (shl_byte_lt mem a2 8 32 (by norm_num)))
    (byte_lt_pow mem a3 32 (by norm_num))

/-- The big-endian 16-bit value computed by impl<scalar_type, 2>::read
equals the decode formula of the spec. -/
theorem decode2_be (mem : Mem) (c : Nat) :
    uint16 (uint16 (byteAt mem c) <<< CHAR_BIT ||| uint16 (byteAt mem (c + 1)))
      = spec_decode_be mem c 2 := by
  have hr : List.range 2 = [0, 1] := rfl
  rw [spec_decode_be, hr]
  simp only [List.foldl_cons, List.foldl_nil, Nat.zero_or, uint16_byte]
  norm_num [CHAR_BIT, Nat.shiftLeft_zero]
  exact Nat.mod_eq_of_lt (or2_byte_lt mem c (c + 1) 16 (by norm_num))

/-- The little-endian 16-bit value computed by impl<scalar_type, 2>::read
equals the decode formula of the spec. -/
theorem decode2_le (mem : Mem) (c : Nat) :
    uint16 (uint16 (byteAt mem (c + 1)) <<< CHAR_BIT ||| uint16 (byteAt mem c))
      = spec_decode_le mem c 2 := by
  have hr : List.range 2 = [0, 1] := rfl
  rw [spec_decode_le, hr]
  simp only [List.foldl_cons, List.foldl_nil, Nat.zero_or, uint16_byte]
  norm_num [CHAR_BIT, Nat.shiftLeft_zero]
  rw [Nat.or_comm]
  exact Nat.mod_eq_of_lt
    (Nat.or_lt_two_pow (byte_lt_pow mem c 16 (by norm_num))
      (shl_byte_lt mem (c + 1) 8 16 (by norm_num)))

/-- The big-endian 32-bit value computed by impl<scalar_type, 4>::read
equals the decode formula of the spec. -/
theorem decode4_be (mem : Mem) (c : Nat) :
    uint32 (uint32 (uint32 (byteAt mem c) <<< (CHAR_BIT * 3))
      ||| uint32 (uint32 (byteAt mem (c + 1)) <<< (CHAR_BIT * 2))
      ||| uint32 (uint32 (byteAt mem (c + 2)) <<< CHAR_BIT)
      ||| uint32 (byteAt mem (c + 3)))
      = spec_decode_be mem c 4 := by
  have hr : List.range 4 = [0, 1, 2, 3] := rfl
  rw [spec_decode_be, hr]
  simp only [List.foldl_cons, List.foldl_nil, Nat.zero_or, uint32_byte, CHAR_BIT]
  norm_num [Nat.shiftLeft_zero]
  rw [uint32_shl_byte mem c 24 (by norm_num), uint32_shl_byte mem (c + 1) 16 (by norm_num),
    uint32_shl_byte mem (c + 2) 8 (by norm_num)]
  exact Nat.mod_eq_of_lt (or4_byte_lt mem c (c + 1) (c + 2) (c + 3))

/-- The little-endian 32-bit value computed by impl<scalar_type, 4>::read
equals the decode formula of the spec. -/
theorem decode4_le (mem : Mem) (c : Nat) :
    uint32 (uint32 (uint32 (byteAt mem (c + 3)) <<< (CHAR_BIT * 3))
      ||| uint32 (uint32 (byteAt mem (c + 2)) <<< (CHAR_BIT * 2))
      ||| uint32 (uint32 (byteAt mem (c + 1)) <<< CHAR_BIT)
      ||| uint32 (byteAt mem c))
      = spec_decode_le mem c 4 := by
  have hr : List.range 4 = [0, 1, 2, 3] := rfl
  rw [spec_decode_le, hr]
  simp only [List.foldl_cons, List.foldl_nil, Nat.zero_or, uint32_byte, CHAR_BIT]
  norm_num [Nat.shiftLeft_zero]
  rw [uint32_shl_byte mem (c + 3) 24 (by norm_num),
    uint32_shl_byte mem (c + 2) 16 (by norm_num),
    uint32_shl_byte mem (c + 1) 8 (by norm_num)]
  simp only [uint32]
  rw [Nat.mod_eq_of_lt (or4_byte_lt mem (c + 3) (c + 2) (c + 1) c)]
  simp [Nat.or_assoc, Nat.or_comm, nat_or_left_comm]

/-- Bound for the uint32 half values combined by impl<scalar_type, 8>::read. -/
theorem or4_shl32_or4_lt (mem : Mem) (a0 a1 a2 a3 b0 b1 b2 b3 : Nat) :
    (byteAt mem a0 <<< 24 ||| byteAt mem a1 <<< 16 ||| byteAt mem a2 <<< 8
        ||| byteAt mem a3) <<< 32
      ||| (byteAt mem b0 <<< 24 ||| byteAt mem b1 <<< 16 ||| byteAt mem b2 <<< 8
        ||| byteAt mem b3) < 2 ^ 64 := by
  apply Nat.or_lt_two_pow
  · rw [Nat.shiftLeft_eq]
    have h1 := or4_byte_lt mem a0 a1 a2 a3
    calc (byteAt mem a0 <<< 24 ||| byteAt mem a1 <<< 16 ||| byteAt mem a2 <<< 8
            ||| byteAt mem a3) * 2 ^ 32
        < 2 ^ 32 * 2 ^ 32 := mul_lt_mul_of_pos_right h1 (Nat.two_pow_pos 32)
      _ = 2 ^ 64 := by norm_num
  · exact lt_trans (or4_byte_lt mem b0 b1 b2 b3) (by norm_num)

/-- The big-endian 64-bit value computed by impl<scalar_type, 8>::read
equals the decode formula of the spec. -/
theorem decode8_be (mem : Mem) (c : Nat) :
    uint64 (uint64 (uint32 (uint32 (byteAt mem c) <<< (CHAR_BIT * 3))
        ||| uint32 (uint32 (byteAt mem (c + 1)) <<< (CHAR_BIT * 2))
        ||| uint32 (uint32 (byteAt mem (c + 2)) <<< CHAR_BIT)
        ||| uint32 (byteAt mem (c + 3))) <<< (CHAR_BIT * 4)
      ||| uint64 (uint32 (uint32 (byteAt mem (c + 4)) <<< (CHAR_BIT * 3))
        ||| uint32 (uint32 (byteAt mem (c + 5)) <<< (CHAR_BIT * 2))
        ||| uint32 (uint32 (byteAt mem (c + 6)) <<< CHAR_BIT)
        ||| uint32 (byteAt mem (c + 7))))
      = spec_decode_be mem c 8 := by
  have hr : List.range 8 = [0, 1, 2, 3, 4, 5, 6, 7] := rfl
  rw [spec_decode_be, hr]
  simp only [List.foldl_cons, List.foldl_nil, Nat.zero_or, uint32_byte, CHAR_BIT]
  norm_num [Nat.shiftLeft_zero]
  rw [uint32_shl_byte mem c 24 (by norm_num), uint32_shl_byte mem (c + 1) 16 (by norm_num),
    uint32_shl_byte mem (c + 2) 8 (by norm_num),
    uint32_shl_byte mem (c + 4) 24 (by norm_num),
    uint32_shl_byte mem (c + 5) 16 (by norm_num),
    uint32_shl_byte mem (c + 6) 8 (by norm_num)]
  simp only [uint64]
  rw [Nat.mod_eq_of_lt (lt_trans (or4_byte_lt mem c (c + 1) (c + 2) (c + 3)) (by norm_num)),
    Nat.mod_eq_of_lt (lt_trans (or4_byte_lt mem (c + 4) (c + 5) (c + 6) (c + 7)) (by norm_num)),
    Nat.mod_eq_of_lt (or4_shl32_or4_lt mem c (c + 1) (c + 2) (c + 3) (c + 4) (c + 5) (c + 6) (c + 7))]
  rw [shiftLeft_or_distrib, shiftLeft_or_distrib, shiftLeft_or_distrib]
  rw [shiftLeft_shiftLeft_add, shiftLeft_shiftLeft_add, shiftLeft_shiftLeft_add]
  norm_num [Nat.or_assoc]

/-- The little-endian 64-bit value computed by impl<scalar_type, 8>::read
equals the decode formula of the spec. -/
theorem decode8_le (mem : Mem) (c : Nat) :
    uint64 (uint64 (uint32 (uint32 (byteAt mem (c + 7)) <<< (CHAR_BIT * 3))
        ||| uint32 (uint32 (byteAt mem (c + 6)) <<< (CHAR_BIT * 2))
        ||| uint32 (uint32 (byteAt mem (c + 5)) <<< CHAR_BIT)
        ||| uint32 (byteAt mem (c + 4))) <<< (CHAR_BIT * 4)
      ||| uint64 (uint32 (uint32 (byteAt mem (c + 3)) <<< (CHAR_BIT * 3))
        ||| uint32 (uint32 (byteAt mem (c + 2)) <<< (CHAR_BIT * 2))
        ||| uint32 (uint32 (byteAt mem (c + 1)) <<< CHAR_BIT)
        ||| uint32 (byteAt mem c)))
      = spec_decode_le mem c 8 := by
  have hr : List.range 8 = [0, 1, 2, 3, 4, 5, 6, 7] := rfl
  rw [spec_decode_le, hr]
  simp only [List.foldl_cons, List.foldl_nil, Nat.zero_or, uint32_byte, CHAR_BIT]
  norm_num [Nat.shiftLeft_zero]
  rw [uint32_shl_byte mem (c + 7) 24 (by norm_num),
    uint32_shl_byte mem (c + 6) 16 (by norm_num),
    uint32_shl_byte mem (c + 5) 8 (by norm_num),
    uint32_shl_byte mem (c + 3) 24 (by norm_num),
    uint32_shl_byte mem (c + 2) 16 (by norm_num),
    uint32_shl_byte mem (c + 1) 8 (by norm_num)]
  simp only [uint64]
  rw [Nat.mod_eq_of_lt (lt_trans (or4_byte_lt mem (c + 7) (c + 6) (c + 5) (c + 4)) (by norm_num)),
    Nat.mod_eq_of_lt (lt_trans (or4_byte_lt mem (c + 3) (c + 2) (c + 1) c) (by norm_num)),
    Nat.mod_eq_of_lt (or4_shl32_or4_lt mem (c + 7) (c + 6) (c + 5) (c + 4) (c + 3) (c + 2) (c + 1) c)]
  rw [shiftLeft_or_distrib, shiftLeft_or_distrib, shiftLeft_or_distrib]
  rw [shiftLeft_shiftLeft_add, shiftLeft_shiftLeft_add, shiftLeft_shiftLeft_add]
  norm_num
  simp [Nat.or_assoc, Nat.or_comm, nat_or_left_comm]

/-- The 8-bit value read by impl<scalar_type, 1>::read equals the one-byte
instance of the big-endian decode formula of the spec. -/
theorem decode1_be (mem : Mem) (c : Nat) : byteAt mem c = spec_decode_be mem c 1 := by
  have hr : List.range 1 = [0] := rfl
  rw [spec_decode_be, hr]
  simp

/-- The 8-bit value read by impl<scalar_type, 1>::read equals the one-byte
instance of the little-endian decode formula of the spec. -/
theorem decode1_le (mem : Mem) (c : Nat) : byteAt mem c = spec_decode_le mem c 1 := by
  have hr : List.range 1 = [0] := rfl
  rw [spec_decode_le, hr]
  simp

theorem big_ne_little : ¬ (big = little) := by decide

instance decidableWF (s : bytefluo) : Decidable (WF s) :=
  inferInstanceAs (Decidable (_ ∧ _))

/-- C1: for every cursor and every integer scalar type of width 1, 2, 4 or
8 bytes, operator>> fails with attempt_to_read_past_end when
buf_end - cursor < sizeof(T), leaving the state (hence the position)
unchanged; otherwise it succeeds and advances the cursor by exactly
sizeof(T).  The final scalar_type cast affects only the value, never the
error or cursor behaviour, so the width covers signed and unsigned types
alike. -/
theorem claim_C1_read_scalar_bounds (mem : Mem) (s : bytefluo) (w : width)
    (hwf : WF s) :
    (s.buf_end - s.cursor < w.bytes →
      read_scalar mem s w = (.error .attempt_to_read_past_end, s)) ∧
    (w.bytes ≤ s.buf_end - s.cursor →
      ∃ v, read_scalar mem s w = (.ok v, { s with cursor := s.cursor + w.bytes })) := by
  obtain ⟨h1, h2⟩ := hwf
  cases w <;> refine ⟨fun h => ?_, fun h => ?_⟩
  all_goals simp only [width.bytes] at h
  all_goals try simp only [width.bytes]
  all_goals simp only [read_scalar, impl_read, impl_read_1, impl_read_2,
    impl_read_4, impl_read_8]
  all_goals split_ifs with hc
  all_goals first
    | rfl
    | (exfalso; omega)
    | exact ⟨_, rfl⟩

/-- Witness for C1: on the 7-byte scenario buffer, a 4-byte read with only
2 bytes left fails leaving the state unchanged, and a 2-byte read at the
start succeeds advancing the cursor by 2. -/
theorem claim_C1_read_scalar_bounds_witness :
    (WF (⟨100, 107, 105, big⟩ : bytefluo) ∧
      read_scalar mem99 ⟨100, 107, 105, big⟩ .w4
        = (.error .attempt_to_read_past_end, ⟨100, 107, 105, big⟩)) ∧
    (WF (⟨100, 107, 100, big⟩ : bytefluo) ∧
      ∃ v, read_scalar mem99 ⟨100, 107, 100, big⟩ .w2
        = (.ok v, ⟨100, 107, 102, big⟩)) :=
  ⟨⟨by decide,
      (claim_C1_read_scalar_bounds mem99 ⟨100, 107, 105, big⟩ .w4 (by decide)).1
        (by decide)⟩,
    ⟨by decide,
      (claim_C1_read_scalar_bounds mem99 ⟨100, 107, 100, big⟩ .w2 (by decide)).2
        (by decide)⟩⟩

/-- C2: a successful scalar read returns exactly the value of the decode
formula documented in the spec, in both byte orders and for every width;
and, concretely, on bytes 99 AA BB CC DD EE FF in big-endian mode, reading
uint16 then uint8 then uint32 yields 99AA, BB, CCDDEEFF. -/
theorem claim_C2_decode_formulas :
    (∀ (mem : Mem) (s : bytefluo) (w : width), WF s →
      w.bytes ≤ s.buf_end - s.cursor →
      (s.buf_byte_order = big →
        (read_scalar mem s w).1 = .ok (spec_decode_be mem s.cursor w.bytes)) ∧
      (s.buf_byte_order = little →
        (read_scalar mem s w).1 = .ok (spec_decode_le mem s.cursor w.bytes))) ∧
    ((read_scalar mem99 ⟨100, 107, 100, big⟩ .w2).1 = .ok 0x99AA ∧
      (read_scalar mem99 ⟨100, 107, 100, big⟩ .w2).2 = ⟨100, 107, 102, big⟩ ∧
      (read_scalar mem99 ⟨100, 107, 102, big⟩ .w1).1 = .ok 0xBB ∧
      (read_scalar mem99 ⟨100, 107, 102, big⟩ .w1).2 = ⟨100, 107, 103, big⟩ ∧
      (read_scalar mem99 ⟨100, 107, 103, big⟩ .w4).1 = .ok 0xCCDDEEFF) := by
  constructor
  · intro mem s w hwf hroom
    obtain ⟨h1, h2⟩ := hwf
    cases w
    case w1 =>
      simp only [width.bytes] at hroom ⊢
      have hc : ¬ ((s.buf_end : Int) - (s.cursor : Int) < 1) := by omega
      refine ⟨fun hbo => ?_, fun hbo => ?_⟩ <;>
        simp only [read_scalar, impl_read, impl_read_1] <;>
        rw [if_neg hc]
      · exact congrArg Except.ok (decode1_be mem s.cursor)
      · exact congrArg Except.ok (decode1_le mem s.cursor)
    case w2 =>
      simp only [width.bytes] at hroom ⊢
      have hc : ¬ ((s.buf_end : Int) - (s.cursor : Int) < 2) := by omega
      constructor
      · intro hbo
        simp only [read_scalar, impl_read, impl_read_2]
        rw [if_neg hc, hbo, if_neg big_ne_little]
        exact congrArg Except.ok (decode2_be mem s.cursor)
      · intro hbo
        simp only [read_scalar, impl_read, impl_read_2]
        rw [if_neg hc, hbo, if_pos rfl]
        exact congrArg Except.ok (decode2_le mem s.cursor)
    case w4 =>
      simp only [width.bytes] at hroom ⊢
      have hc : ¬ ((s.buf_end : Int) - (s.cursor : Int) < 4) := by omega
      constructor
      · intro hbo
        simp only [read_scalar, impl_read, impl_read_4]
        rw [if_neg hc, hbo, if_neg big_ne_little]
        exact congrArg Except.ok (decode4_be mem s.cursor)
      · intro hbo
        simp only [read_scalar, impl_read, impl_read_4]
        rw [if_neg hc, hbo, if_pos rfl]
        exact congrArg Except.ok (decode4_le mem s.cursor)
    case w8 =>
      simp only [width.bytes] at hroom ⊢
      have hc : ¬ ((s.buf_end : Int) - (s.cursor : Int) < 8) := by omega
      constructor
      · intro hbo
        simp only [read_scalar, impl_read, impl_read_8]
        rw [if_neg hc, hbo, if_neg big_ne_little]
        exact congrArg Except.ok (decode8_be mem s.cursor)
      · intro hbo
        simp only [read_scalar, impl_read, impl_read_8]
        rw [if_neg hc, hbo, if_pos rfl]
        exact congrArg Except.ok (decode8_le mem s.cursor)
  · exact ⟨rfl, rfl, rfl, rfl, rfl⟩

/-- Witness for C2: a little-endian 2-byte read on the scenario buffer
returns exactly the spec decode formula value. -/
theorem claim_C2_decode_formulas_witness :
    WF (⟨100, 107, 100, little⟩ : bytefluo) ∧
    width.w2.bytes ≤ (107 : Nat) - 100 ∧
    (read_scalar mem99 ⟨100, 107, 100, little⟩ .w2).1
      = .ok (spec_decode_le mem99 100 2) :=
  ⟨by decide, by decide,
    (claim_C2_decode_formulas.1 mem99 ⟨100, 107, 100, little⟩ .w2
      (by decide) (by decide)).2 rfl⟩

/-- C3 (divergence shown at the failing input): on the default empty
cursor, buf_end - cursor = 0 is smaller than len = 2 ^ 63, yet the raw
read does not fail: static_cast<ptrdiff_t>(len) is negative, the bounds
check passes, and the cursor is pushed past buf_end. -/
theorem claim_C3_raw_read_len_cast_divergence :
    default_ctor.buf_end - default_ctor.cursor < 2 ^ 63 ∧
    (read mem0 default_ctor (2 ^ 63)).1.isOk = true ∧
    (read mem0 default_ctor (2 ^ 63)).2.cursor = 2 ^ 63 :=
  ⟨by decide, rfl, rfl⟩

/-- C4: seek_current fails with attempt_to_seek_before_beginning exactly
when cursor + pos < buf_begin, fails with attempt_to_seek_after_end
exactly when cursor + pos > buf_end (comparisons exact, no wrap-around),
and otherwise moves the cursor to cursor + pos and returns the new offset
from buf_begin; on failure the state is unchanged. -/
theorem claim_C4_seek_current_exact (s : bytefluo) (pos : Int) (hwf : WF s) :
    ((s.cursor : Int) + pos < (s.buf_begin : Int) ↔
      seek_current s pos = (.error .attempt_to_seek_before_beginning, s)) ∧
    ((s.buf_end : Int) < (s.cursor : Int) + pos ↔
      seek_current s pos = (.error .attempt_to_seek_after_end, s)) ∧
    ((s.buf_begin : Int) ≤ (s.cursor : Int) + pos →
      (s.cursor : Int) + pos ≤ (s.buf_end : Int) →
      seek_current s pos
        = (.ok (((s.cursor : Int) + pos).toNat - s.buf_begin),
           { s with cursor := ((s.cursor : Int) + pos).toNat })) := by
  obtain ⟨h1, h2⟩ := hwf
  unfold seek_current
  split_ifs with hneg hb ha <;>
    refine ⟨⟨fun hcond => ?_, fun heq => ?_⟩, ⟨fun hcond => ?_, fun heq => ?_⟩,
      fun hge hle => ?_⟩
  all_goals first
    | rfl
    | (exfalso; omega)
    | (simp at heq <;> omega)

/-- Witness for C4: seeking -2 from offset 3 in the 7-byte range succeeds
and returns offset 1. -/
theorem claim_C4_seek_current_exact_witness :
    WF (⟨100, 107, 103, big⟩ : bytefluo) ∧
    seek_current ⟨100, 107, 103, big⟩ (-2) = (.ok 1, ⟨100, 107, 101, big⟩) :=
  ⟨by decide,
    (claim_C4_seek_current_exact ⟨100, 107, 103, big⟩ (-2) (by decide)).2.2
      (by decide) (by decide)⟩

/-- C5: set_data_range either fails validation leaving the whole state
(buf_begin, buf_end, cursor, buf_byte_order) unchanged, or succeeds,
replacing the range and resetting the cursor to the new begin. -/
theorem claim_C5_set_data_range_strong (s : bytefluo) (b e : Nat) :
    (∀ err, validate b e = some err → set_data_range s b e = (some err, s)) ∧
    (validate b e = none →
      set_data_range s b e
        = (none, { buf_begin := b, buf_end := e, cursor := b,
                   buf_byte_order := s.buf_byte_order })) := by
  constructor
  · intro err h
    simp [set_data_range, h]
  · intro h
    simp [set_data_range, h]

/-- Witness for C5: a null end with non-null begin is rejected with the
state untouched; a valid pair rebinds and resets the cursor. -/
theorem claim_C5_set_data_range_strong_witness :
    (validate 5 0 = some .null_end_non_null_begin ∧
      set_data_range ⟨100, 107, 103, little⟩ 5 0
        = (some .null_end_non_null_begin, ⟨100, 107, 103, little⟩)) ∧
    (validate 200 210 = none ∧
      set_data_range ⟨100, 107, 103, little⟩ 200 210
        = (none, ⟨200, 210, 200, little⟩)) :=
  ⟨⟨rfl, (claim_C5_set_data_range_strong ⟨100, 107, 103, little⟩ 5 0).1 _ rfl⟩,
    ⟨rfl, (claim_C5_set_data_range_strong ⟨100, 107, 103, little⟩ 200 210).2 rfl⟩⟩

/-- C6 (divergence shown at the failing input): the invariant
buf_begin ≤ cursor ≤ buf_end holds for the default-constructed cursor, yet
a single raw read with len = 2 ^ 63 completes without error and leaves a
state that violates the invariant. -/
theorem claim_C6_invariant_broken_by_raw_read :
    WF default_ctor ∧
    (read mem0 default_ctor (2 ^ 63)).1.isOk = true ∧
    ¬ WF (read mem0 default_ctor (2 ^ 63)).2 :=
  ⟨by decide, rfl, by decide⟩

/-- C7: construction succeeds on every valid pair with a recognised byte
order, giving size = end - begin and tell = 0; a non-null begin with null
end fails with null_end_non_null_begin; a null begin with non-null end
fails with null_begin_non_null_end; a (non-null) end preceding begin fails
with end_precedes_begin. -/
theorem claim_C7_construction (b e bo : Nat) :
    ((b = 0 ↔ e = 0) → b ≤ e → (bo = big ∨ bo = little) →
      ∃ s, construct b e bo = .ok s ∧ size s = e - b ∧ tellg s = 0) ∧
    (b ≠ 0 → e = 0 → construct b e bo = .error .null_end_non_null_begin) ∧
    (b = 0 → e ≠ 0 → construct b e bo = .error .null_begin_non_null_end) ∧
    (e ≠ 0 → e < b → construct b e bo = .error .end_precedes_begin) := by
  refine ⟨fun hne hle hbo => ?_, fun hb he => ?_, fun hb he => ?_, fun he hlt => ?_⟩
  · have hv : validate b e = none := by
      unfold validate
      rw [if_neg (fun h => h.2 (hne.mp h.1)), if_neg (fun h => h.1 (hne.mpr h.2)),
        if_neg (by omega)]
    have hbo2 : ¬ (bo ≠ big ∧ bo ≠ little) := fun h =>
      match hbo with
      | .inl hh => h.1 hh
      | .inr hh => h.2 hh
    refine ⟨⟨b, e, b, bo⟩, ?_, by simp [size], by simp [tellg]⟩
    simp [construct, hv, hbo2]
  · have hv : validate b e = some .null_end_non_null_begin := by
      unfold validate
      rw [if_neg (fun h => hb h.1), if_pos ⟨hb, he⟩]
    simp [construct, hv]
  · have hv : validate b e = some .null_begin_non_null_end := by
      unfold validate
      rw [if_pos ⟨hb, he⟩]
    simp [construct, hv]
  · have hv : validate b e = some .end_precedes_begin := by
      unfold validate
      rw [if_neg (fun h => (show b ≠ 0 by omega) h.1), if_neg (fun h => he h.2),
        if_pos hlt]
    simp [construct, hv]

/-- Witness for C7: all four construction outcomes at concrete inputs. -/
theorem claim_C7_construction_witness :
    ((100 = 0 ↔ 107 = 0) ∧ (100 : Nat) ≤ 107 ∧ (big = big ∨ big = little) ∧
      ∃ s, construct 100 107 big = .ok s ∧ size s = 7 ∧ tellg s = 0) ∧
    (construct 5 0 big = .error .null_end_non_null_begin) ∧
    (construct 0 7 big = .error .null_begin_non_null_end) ∧
    (construct 9 4 big = .error .end_precedes_begin) :=
  ⟨⟨by decide, by decide, Or.inl rfl,
      (claim_C7_construction 100 107 big).1 (by decide) (by decide) (Or.inl rfl)⟩,
    (claim_C7_construction 5 0 big).2.1 (by decide) rfl,
    (claim_C7_construction 0 7 big).2.2.1 rfl (by decide),
    (claim_C7_construction 9 4 big).2.2.2 (by decide) (by decide)⟩

/-- C8: seek_current 0, seek_begin (tellg) and seek_end (size - tellg) all
succeed, leave the cursor where it is, and return the current offset. -/
theorem claim_C8_seek_idempotence (s : bytefluo) (hwf : WF s) :
    seek_current s 0 = (.ok (tellg s), s) ∧
    seek_begin s (tellg s) = (.ok (tellg s), s) ∧
    seek_end s (size s - tellg s) = (.ok (tellg s), s) := by
  obtain ⟨bb, be, c, bo⟩ := s
  obtain ⟨h1, h2⟩ := hwf
  simp only [tellg, size] at h1 h2 ⊢
  refine ⟨?_, ?_, ?_⟩
  · unfold seek_current
    rw [if_neg (by omega : ¬ ((0 : Int) < 0)),
      if_neg (show ¬ ((0 : Int) > (be : Int) - (c : Int)) by omega)]
    rfl
  · unfold seek_begin
    rw [if_neg (show ¬ (c - bb > be - bb) by omega)]
    have hc : bb + (c - bb) = c := by omega
    rw [hc]
  · unfold seek_end
    rw [if_neg (show ¬ ((be - bb) - (c - bb) > be - bb) by omega)]
    have hc : be - ((be - bb) - (c - bb)) = c := by omega
    rw [hc]

/-- Witness for C8: the three no-op seeks at offset 3 of the 7-byte range
all return 3 and leave the cursor at 103. -/
theorem claim_C8_seek_idempotence_witness :
    WF (⟨100, 107, 103, big⟩ : bytefluo) ∧
    (seek_current ⟨100, 107, 103, big⟩ 0 = (.ok 3, ⟨100, 107, 103, big⟩) ∧
      seek_begin ⟨100, 107, 103, big⟩ 3 = (.ok 3, ⟨100, 107, 103, big⟩) ∧
      seek_end ⟨100, 107, 103, big⟩ 4 = (.ok 3, ⟨100, 107, 103, big⟩)) :=
  ⟨by decide, claim_C8_seek_idempotence ⟨100, 107, 103, big⟩ (by decide)⟩

/-- C9: a successful set_data_range leaves buf_byte_order exactly as it
was, so scalar reads after the rebind keep decoding with the byte order in
effect before the rebind. -/
theorem claim_C9_rebind_preserves_byte_order (s : bytefluo) (b e : Nat)
    (h : validate b e = none) :
    (set_data_range s b e).1 = none ∧
    (set_data_range s b e).2.buf_byte_order = s.buf_byte_order := by
  simp [set_data_range, h]

/-- Witness for C9: rebinding a little-endian cursor keeps it
little-endian. -/
theorem claim_C9_rebind_preserves_byte_order_witness :
    validate 200 210 = none ∧
    (set_data_range ⟨100, 107, 103, little⟩ 200 210).1 = none ∧
    (set_data_range ⟨100, 107, 103, little⟩ 200 210).2.buf_byte_order = little :=
  ⟨rfl, (claim_C9_rebind_preserves_byte_order ⟨100, 107, 103, little⟩ 200 210 rfl).1,
    (claim_C9_rebind_preserves_byte_order ⟨100, 107, 103, little⟩ 200 210 rfl).2⟩

/-- C10: a raw read of zero bytes always succeeds, copies nothing and
leaves the cursor unchanged, including on an empty or exhausted cursor. -/
theorem claim_C10_zero_length_read (mem : Mem) (s : bytefluo) (hwf : WF s) :
    read mem s 0 = (.ok [], s) := by
  obtain ⟨h1, h2⟩ := hwf
  unfold read
  rw [if_neg (show ¬ ((s.buf_end : Int) - (s.cursor : Int) < ptrdiff_of_size 0) by
    simp only [ptrdiff_of_size]
    norm_num
    omega)]
  rfl

/-- Witness for C10: the default-constructed empty cursor accepts a raw
read of zero bytes. -/
theorem claim_C10_zero_length_read_witness :
    WF default_ctor ∧ read mem0 default_ctor 0 = (.ok [], default_ctor) :=
  ⟨by decide, claim_C10_zero_length_read mem0 default_ctor (by decide)⟩

end Bytefluo
